import Mathlib

/-!
A verification development for the mdmindmap markdown mind-map builder.

The core logic lives in `core.py`: a frontmatter splitter built on the regex
`^---\s*\n(.*?)\n---\s*\n(.*)$`, an inline-link extractor built on
`\[([^\]]+)\]\(([^)]+)\)`, a link resolver (`resolve_link`,
`_case_insensitive_existing`, `is_external_link`) over posix paths, and a
depth-first walker (`parse_md`) that builds a tree of nodes while breaking
cycles with a visited set.

Strings are modelled as `List Char` (`Str`).  The filesystem, the YAML parser
(PyYAML) and the markdown renderer are external collaborators of the core and
are modelled by an explicit `Env` record: a finite file table (a `none` content
is a file that exists but cannot be read), a directory table with listings (a
`none` listing is a directory whose listing raises `PermissionError`), the
working directory, and the two library functions as abstract parameters
(`yaml` returning `none` models `yaml.safe_load` raising or returning a
non-truthy value; its result is restricted to a scalar-valued mapping, the
only shape the walker consumes).  Python exceptions are modelled as `Option`.

The walker recurses along the link graph; the Python code terminates because
the shared visited set grows on every descent.  Here the recursion is made
structural with a fuel parameter (`parseMdF`); `parse_md` runs it with fuel
`remaining + 1` (one more than the number of files not yet visited), and a
stability theorem shows every fuel of at least that bound computes the same
result, which is the termination argument.
-/

namespace MDMM

abbrev Str := List Char

/-- Boundary helper: a Lean string literal as a `Str`. -/
def S (s : String) : Str := s.data

/-- Python `\s` on the characters that occur in markdown (ASCII whitespace:
space, tab, newline, carriage return, form feed, vertical tab). -/
def pySpace (c : Char) : Bool :=
  c = ' ' || c = '\t' || c = '\n' || c = '\r' || c = '\x0b' || c = '\x0c'

/-- Python `str.strip()`: drop leading and trailing whitespace. -/
def pyStrip (s : Str) : Str :=
  ((s.dropWhile pySpace).reverse.dropWhile pySpace).reverse

/-- ASCII lower-casing of one character (Python `str.lower` on the ASCII
names handled by the resolver). -/
def lowerChar (c : Char) : Char :=
  if 'A' ≤ c ∧ c ≤ 'Z' then Char.ofNat (c.toNat + 32) else c

/-- Python `str.lower` (ASCII). -/
def lowerStr (s : Str) : Str := s.map lowerChar

def isAsciiAlpha (c : Char) : Bool :=
  ('a' ≤ c ∧ c ≤ 'z') || ('A' ≤ c ∧ c ≤ 'Z')

def isAsciiDigit (c : Char) : Bool := '0' ≤ c ∧ c ≤ '9'

/-- The characters allowed in a URI scheme (`urllib.parse.scheme_chars`). -/
def isSchemeChar (c : Char) : Bool :=
  isAsciiAlpha c || isAsciiDigit c || c = '+' || c = '-' || c = '.'

/-- Index of the last occurrence of `c` in `s`, scanning with a counter
(Python `str.rfind`). -/
def lastIdxOfAux (c : Char) : Str → Nat → Option Nat → Option Nat
  | [], _, best => best
  | x :: xs, i, best =>
      lastIdxOfAux c xs (i + 1) (if x = c then some i else best)

def lastIdxOf (c : Char) (s : Str) : Option Nat := lastIdxOfAux c s 0 none

/-- Association-list lookup with decidable string keys (Python `dict.get`). -/
def alookup {α : Type} (k : Str) : List (Str × α) → Option α
  | [] => none
  | (k2, v) :: rest => if k2 = k then some v else alookup k rest

/-! ## posixpath -/

/-- Python `str.split('/')` (keeps empty pieces; `""` splits to `[""]`). -/
def splitSlashAux : Str → Str → List Str
  | [], acc => [acc.reverse]
  | c :: cs, acc =>
      if c = '/' then acc.reverse :: splitSlashAux cs []
      else splitSlashAux cs (c :: acc)

def splitSlash (s : Str) : List Str := splitSlashAux s []

/-- The component loop of `posixpath.normpath`: skip `""` and `"."`, push
ordinary components, let `".."` pop unless it stands at the start of a
relative path or follows another kept `".."`.  `acc` is the reversed stack. -/
def normAux (hasRoot : Bool) : List Str → List Str → List Str
  | [], acc => acc.reverse
  | comp :: rest, acc =>
      if comp = [] ∨ comp = S "." then normAux hasRoot rest acc
      else if comp ≠ S ".." ∨ (¬hasRoot ∧ acc = []) ∨ acc.head? = some (S "..") then
        normAux hasRoot rest (comp :: acc)
      else if acc ≠ [] then normAux hasRoot rest acc.tail
      else normAux hasRoot rest acc

/-- `posixpath.normpath` (a leading `"//"` is kept, any other run of leading
slashes collapses to one). -/
def normpath (p : Str) : Str :=
  if p = [] then S "."
  else
    let slashes : Nat :=
      if p.take 2 = S "//" ∧ p.take 3 ≠ S "///" then 2
      else if p.take 1 = S "/" then 1 else 0
    let comps := normAux (slashes ≠ 0) (splitSlash p) []
    let r := List.replicate slashes '/' ++ List.intercalate (S "/") comps
    if r = [] then S "." else r

/-- `posixpath.join` for two arguments. -/
def joinPath (a b : Str) : Str :=
  if b.take 1 = S "/" then b
  else if a = [] ∨ a.reverse.take 1 = S "/" then a ++ b
  else a ++ S "/" ++ b

/-- `os.path.abspath`: make absolute against the working directory, then
normalise. -/
def absPath (cwd p : Str) : Str :=
  if p.take 1 = S "/" then normpath p else normpath (joinPath cwd p)

/-- `posixpath.dirname`. -/
def dirname (p : Str) : Str :=
  match lastIdxOf '/' p with
  | none => []
  | some i =>
      let head := p.take (i + 1)
      if head.any (fun c => c ≠ '/') then (head.reverse.dropWhile (fun c => c = '/')).reverse
      else head

/-- `posixpath.basename`. -/
def basename (p : Str) : Str :=
  match lastIdxOf '/' p with
  | none => p
  | some i => p.drop (i + 1)

/-- `posixpath.splitext`: split off the extension at the last dot of the last
component, except that the leading dots of a filename never start an
extension. -/
def splitext (p : Str) : Str × Str :=
  let si : Nat := match lastIdxOf '/' p with | none => 0 | some i => i + 1
  match lastIdxOf '.' p with
  | some d =>
      if si ≤ d ∧ ((p.drop si).take (d - si)).any (fun c => c ≠ '.') then
        (p.take d, p.drop d)
      else (p, [])
  | none => (p, [])

/-- Python `str.endswith(os.sep)`. -/
def endsWithSep (p : Str) : Bool := p.reverse.take 1 = S "/"

/-- `pathlib.PurePath.stem`: the final component without its suffix (a dot at
the very start or very end of the name is not a suffix separator). -/
def stemOf (p : Str) : Str :=
  let name := basename p
  match lastIdxOf '.' name with
  | some i => if 0 < i ∧ i + 1 < name.length then name.take i else name
  | none => name

/-! ## urllib.parse -/

/-- The result of `urllib.parse.urlparse` (the components the resolver
consumes; the `params` split on `;` is not exercised by markdown links and is
not modelled). -/
structure UrlParts where
  scheme : Str
  netloc : Str
  path : Str
  query : Str
  fragment : Str
deriving DecidableEq

/-- `urllib.parse.urlparse`: a scheme is a leading run of scheme characters
starting with an ASCII letter and ending at the first `:`; a netloc follows a
`//` and runs to the next `/`, `?` or `#`; then the fragment splits at the
first `#` and the query at the first `?`. -/
def urlparse (url : Str) : UrlParts :=
  let (scheme, rest) :=
    match url.findIdx? (fun c => c = ':') with
    | some i =>
        if decide (0 < i) && (url.take i).all isSchemeChar &&
            (match url.head? with | some c => isAsciiAlpha c | none => false) then
          (lowerStr (url.take i), url.drop (i + 1))
        else ([], url)
    | none => ([], url)
  let (netloc, rest2) :=
    if rest.take 2 = S "//" then
      let after := rest.drop 2
      let nl := after.takeWhile (fun c => c ≠ '/' ∧ c ≠ '?' ∧ c ≠ '#')
      (nl, after.drop nl.length)
    else ([], rest)
  let (rest3, fragment) :=
    match rest2.findIdx? (fun c => c = '#') with
    | some i => (rest2.take i, rest2.drop (i + 1))
    | none => (rest2, [])
  let (path, query) :=
    match rest3.findIdx? (fun c => c = '?') with
    | some i => (rest3.take i, rest3.drop (i + 1))
    | none => (rest3, [])
  ⟨scheme, netloc, path, query, fragment⟩

def hexDigit (c : Char) : Option Nat :=
  if '0' ≤ c ∧ c ≤ '9' then some (c.toNat - '0'.toNat)
  else if 'a' ≤ c ∧ c ≤ 'f' then some (c.toNat - 'a'.toNat + 10)
  else if 'A' ≤ c ∧ c ≤ 'F' then some (c.toNat - 'A'.toNat + 10)
  else none

/-- `urllib.parse.unquote`: a `%` followed by two hex digits decodes to the
byte they spell; anything else is kept.  (Recombining consecutive escaped
bytes into one multi-byte UTF-8 character is outside the model: the links the
repository resolves are ASCII.) -/
def unquote : Str → Str
  | [] => []
  | '%' :: a :: b :: rest =>
      match hexDigit a, hexDigit b with
      | some x, some y => Char.ofNat (16 * x + y) :: unquote rest
      | _, _ => '%' :: unquote (a :: b :: rest)
  | c :: rest => c :: unquote rest

/-! ## Frontmatter: the regex `^---\s*\n(.*?)\n---\s*\n(.*)$` with DOTALL

`\s*\n` matches greedily: it consumes whitespace up to some newline inside
the maximal whitespace run, trying the latest newline first and backtracking
to earlier ones.  The closing delimiter is found by the lazy `(.*?)`: the
scan moves left to right and the first position where `\n---\s*\n` matches
ends the metadata group.  After the closing delimiter `(.*)$` always matches,
so the inner `\s*\n` never needs to backtrack past its greedy choice. -/

/-- Match `\s*\n` at the start of `s` greedily: consume through the last
newline of the maximal whitespace prefix.  `none` when that prefix holds no
newline. -/
def delimRest (s : Str) : Option Str :=
  match lastIdxOf '\n' (s.takeWhile pySpace) with
  | some i => some (s.drop (i + 1))
  | none => none

/-- Scan for the closing `\n---\s*\n`, shortest metadata group first (the
lazy `(.*?)`); returns the metadata group and the final `(.*)` group. -/
def findClose : Str → Option (Str × Str)
  | [] => none
  | c :: cs =>
      if c = '\n' ∧ cs.take 3 = S "---" then
        match delimRest (cs.drop 3) with
        | some body => some ([], body)
        | none =>
            match findClose cs with
            | some (f, b) => some (c :: f, b)
            | none => none
      else
        match findClose cs with
        | some (f, b) => some (c :: f, b)
        | none => none

/-- The newline positions inside the opening delimiter's whitespace run, in
the greedy backtracking order (latest first). -/
def nlIdxsRev (run : Str) : List Nat :=
  ((List.range run.length).filter (fun i => run.get? i = some '\n')).reverse

/-- The whole regex at the start of `text`: `some (metadata, body)` on a
match, `none` otherwise. -/
def fmMatch (text : Str) : Option (Str × Str) :=
  if text.take 3 = S "---" then
    let s := text.drop 3
    (nlIdxsRev (s.takeWhile pySpace)).findSome? (fun i => findClose (s.drop (i + 1)))
  else none

/-! ## YAML values and the frontmatter parser -/

/-- A scalar YAML value as `yaml.safe_load` can place it under a mapping key
(the walker only ever consumes the `title` key, always a scalar). -/
inductive YVal where
  | s (v : Str)
  | i (v : Int)
  | b (v : Bool)
  | null
deriving DecidableEq

/-- Python truthiness of a scalar. -/
def YVal.truthy : YVal → Bool
  | .s v => ¬v.isEmpty
  | .i n => n ≠ 0
  | .b v => v
  | .null => false

/-- Python `str()` of a scalar. -/
def YVal.pyStr : YVal → Str
  | .s v => v
  | .i n => S (toString n)
  | .b true => S "True"
  | .b false => S "False"
  | .null => S "None"

/-- The abstract `yaml.safe_load` on a metadata block: `none` models both an
exception (caught by `parse_frontmatter`) and a non-mapping result the caller
replaces by `{}`. -/
abbrev YamlFn := Str → Option (List (Str × YVal))

/-- `parse_frontmatter`: split YAML frontmatter from the body.  On a regex
match the delimiters are stripped even when the metadata fails to parse; with
no match the whole text is the body. -/
def parse_frontmatter (yamlLoad : YamlFn) (text : Str) : List (Str × YVal) × Str :=
  match fmMatch text with
  | some (fmText, body) => ((yamlLoad fmText).getD [], body)
  | none => ([], text)

/-! ## Link extraction: the regex `\[([^\]]+)\]\(([^)]+)\)` -/

/-- Try to match `label](target)` right after an opening `[`: the label runs
to the first `]` (nonempty), `(` must follow at once, the target runs to the
first `)` (nonempty).  Returns the groups and the number of characters
consumed after the `[`. -/
def matchLink (t : Str) : Option (Str × Str × Nat) :=
  let lbl := t.takeWhile (fun x => x ≠ ']')
  match t.drop lbl.length with
  | ']' :: '(' :: v =>
      if lbl.isEmpty then none
      else
        let tgt := v.takeWhile (fun x => x ≠ ')')
        match v.drop tgt.length with
        | ')' :: _ => if tgt.isEmpty then none else some (lbl, tgt, lbl.length + tgt.length + 3)
        | _ => none
  | _ => none

/-- The scan loop of `extract_links`, made structural on a fuel that bounds
the string length (every step consumes at least one character, so fuel
`s.length` is exact). -/
def extract_linksF : Nat → Str → List (Str × Str)
  | 0, _ => []
  | _ + 1, [] => []
  | f + 1, c :: cs =>
      if c = '[' then
        match matchLink cs with
        | some (l, t, n) => (l, t) :: extract_linksF f (cs.drop n)
        | none => extract_linksF f cs
      else extract_linksF f cs

/-- `extract_links`: all `[label](target)` pairs, left to right,
non-overlapping (`re.finditer`). -/
def extract_links (s : Str) : List (Str × Str) := extract_linksF s.length s

/-! ## The environment: filesystem and external libraries -/

/-- The walker's external collaborators.  `files` maps a path to its content
(`none` content: the file exists but reading it raises).  `dirs` maps a
directory to its listing in directory order (`none` listing: `os.listdir`
raises `PermissionError`).  `yamlLoad` and `render` stand for
`yaml.safe_load` and `markdown.markdown`. -/
structure Env where
  cwd : Str
  files : List (Str × Option Str)
  dirs : List (Str × Option (List Str))
  yamlLoad : YamlFn
  render : Str → Str

def Env.isFile (e : Env) (p : Str) : Bool := (alookup p e.files).isSome

def Env.isDir (e : Env) (p : Str) : Bool := (alookup p e.dirs).isSome

/-- `os.path.exists`. -/
def Env.pathExists (e : Env) (p : Str) : Bool := e.isFile p || e.isDir p

/-- `os.listdir` on a known directory; `none` is a `PermissionError`. -/
def Env.listdir (e : Env) (p : Str) : Option (List Str) :=
  (alookup p e.dirs).getD none

/-- `_read_file_text`: the contents, or `none` when opening/reading raises. -/
def Env.readFile (e : Env) (p : Str) : Option Str :=
  (alookup p e.files).getD none

/-! ## The link resolver -/

/-- `MD_EXTS`, the recognised markdown extensions, in order. -/
def MD_EXTS : List Str := [S ".md", S ".markdown", S ".mdx"]

/-- The listing loop of `_case_insensitive_existing`: the first entry whose
lower-cased name equals the lower-cased basename and which exists on disk. -/
def ciScan (e : Env) (d b : Str) : List Str → Option Str
  | [] => none
  | en :: rest =>
      if lowerStr en = lowerStr b ∧ e.pathExists (joinPath d en) then
        some (absPath e.cwd (joinPath d en))
      else ciScan e d b rest

/-- `_case_insensitive_existing`: the path itself when it exists, otherwise a
case-insensitive match for the basename among the siblings in the same
directory; a `PermissionError` while listing gives `none`. -/
def _case_insensitive_existing (e : Env) (path : Str) : Option Str :=
  if e.pathExists path then some (absPath e.cwd path)
  else
    let d := dirname path
    let b := basename path
    if ¬e.isDir d then none
    else
      match e.listdir d with
      | none => none
      | some entries => ciScan e d b entries

/-- The candidate loop of `resolve_link`: the first candidate that exists
(after the case-insensitive fallback) and whose extension is recognised. -/
def tryCandidates (e : Env) : List Str → Option Str
  | [] => none
  | c :: rest =>
      match _case_insensitive_existing e c with
      | some hit =>
          if lowerStr (splitext hit).2 ∈ MD_EXTS then some (absPath e.cwd hit)
          else tryCandidates e rest
      | none => tryCandidates e rest

/-- `resolve_link`: resolve a markdown link target relative to the file that
holds it, or `none` for external, empty and unresolvable targets. -/
def resolve_link (e : Env) (base_file link : Str) : Option Str :=
  let p := urlparse link
  if !p.scheme.isEmpty && !p.netloc.isEmpty then none
  else
    let raw_rel := pyStrip (unquote p.path)
    if raw_rel.isEmpty then none
    else
      let base_dir := dirname base_file
      let raw_abs := absPath e.cwd (joinPath base_dir raw_rel)
      let withExts :=
        if (splitext raw_abs).2.isEmpty then MD_EXTS.map (fun ext => raw_abs ++ ext) else []
      let withIndex :=
        if e.isDir raw_abs || endsWithSep raw_abs then
          MD_EXTS.map (fun ext => joinPath raw_abs (S "index" ++ ext))
        else []
      tryCandidates e (raw_abs :: (withExts ++ withIndex))

/-- `is_external_link`: a target carrying both a scheme and a netloc. -/
def is_external_link (link : Str) : Bool :=
  let p := urlparse link
  !p.scheme.isEmpty && !p.netloc.isEmpty

/-! ## The node tree and the walker -/

inductive Node where
  | mk (id title content : Str) (children : List Node)

def Node.id : Node → Str
  | .mk i _ _ _ => i

def Node.title : Node → Str
  | .mk _ t _ _ => t

def Node.content : Node → Str
  | .mk _ _ c _ => c

def Node.children : Node → List Node
  | .mk _ _ _ ch => ch

/-- Python `a or b` on strings. -/
def orS (a b : Str) : Str := if a.isEmpty then b else a

/-- `str(pathlib.Path(path).resolve())` in a model without symbolic links:
make absolute and normalise. -/
def resolvePath (e : Env) (p : Str) : Str := absPath e.cwd p

/-- The walker's title rule: frontmatter `title` when truthy, else the
inbound link text when truthy, else the filename stem. -/
def computeTitle (fm : List (Str × YVal)) (link_text : Option Str) (path : Str) : Str :=
  match alookup (S "title") fm with
  | some v => if v.truthy then v.pyStr else fallbackTitle link_text path
  | none => fallbackTitle link_text path
where
  fallbackTitle (link_text : Option Str) (path : Str) : Str :=
    match link_text with
    | some l => if l.isEmpty then stemOf path else l
    | none => stemOf path

/-- The leaf appended for an external link. -/
def externalNode (lbl tgt : Str) : Node :=
  Node.mk tgt (orS lbl tgt) (S "<i>External link: " ++ tgt ++ S "</i>") []

/-- The leaf appended for an unresolvable internal link. -/
def unresolvedNode (lbl tgt : Str) : Node :=
  Node.mk tgt (orS lbl tgt) (S "<i>Unresolved link: " ++ tgt ++ S "</i>") []

/-- The leaf appended when the recursive walk of a resolved child returns
`None`. -/
def couldNotLoadNode (lbl resolved : Str) : Node :=
  Node.mk resolved (orS lbl (stemOf resolved)) (S "<i>Could not load</i>") []

/-- The body of `parse_md`'s link loop, parameterised by the recursive call
(`walk`).  The visited set is threaded left to right, as the Python code
mutates its shared `seen` set. -/
def walkStep (e : Env) (walk : Str → List Str → Option Str → Option Node × List Str)
    (base : Str) : List (Str × Str) → List Str → List Node × List Str
  | [], seen => ([], seen)
  | (lbl, tgt) :: rest, seen =>
      if is_external_link tgt then
        let r := walkStep e walk base rest seen
        (externalNode lbl tgt :: r.1, r.2)
      else
        match resolve_link e base tgt with
        | some resolved =>
            let c := walk resolved seen (some lbl)
            let r := walkStep e walk base rest c.2
            match c.1 with
            | some child => (child :: r.1, r.2)
            | none => (couldNotLoadNode lbl resolved :: r.1, r.2)
        | none =>
            let r := walkStep e walk base rest seen
            (unresolvedNode lbl tgt :: r.1, r.2)

/-- `parse_md` as a fuel-indexed family: fuel `0` is the bottom
approximation, fuel `f + 1` performs one call of the Python function and
recurses with fuel `f`.  Returns the node (`none` when the file cannot be
read) and the visited set after the call. -/
def parseMdF (e : Env) : Nat → Str → List Str → Option Str → Option Node × List Str
  | 0, _, seen, _ => (none, seen)
  | f + 1, path0, seen, link_text =>
      let path := resolvePath e path0
      match e.readFile path with
      | none => (none, seen)
      | some text =>
          let fmb := parse_frontmatter e.yamlLoad text
          let title := computeTitle fmb.1 link_text path
          let html := e.render fmb.2
          if path ∈ seen then (some (Node.mk path title html []), seen)
          else
            let r := walkStep e (fun p s l => parseMdF e f p s l) path
                (extract_links fmb.2) (path :: seen)
            (some (Node.mk path title html r.1), r.2)

/-- The paths of `l` that are not in `t`, counted with multiplicity. -/
def countNew (t l : List Str) : Nat :=
  (l.filter (fun p => decide (p ∉ t))).length

/-- The number of files not yet visited: the fuel `parse_md` needs. -/
def remaining (e : Env) (seen : List Str) : Nat :=
  countNew seen (e.files.map Prod.fst)

/-- `parse_md`: the Python function, run with enough fuel (one more than the
number of unvisited files; `parseMdF_stable` in the theorems below shows any
larger fuel computes the same result). -/
def parse_md (e : Env) (path : Str) (seen : List Str) (link_text : Option Str) :
    Option Node × List Str :=
  parseMdF e (remaining e seen + 1) path seen link_text

/-- Navigate a tree along child indices. -/
def nodeAt : Node → List Nat → Option Node
  | n, [] => some n
  | n, i :: rest =>
      match n.children[i]? with
      | some c => nodeAt c rest
      | none => none

/-! ## The visited set only grows, and a bounded fuel suffices -/

theorem countNew_cons (t : List Str) (a : Str) (l : List Str) :
    countNew t (a :: l) = (if a ∈ t then 0 else 1) + countNew t l := by
  by_cases h : a ∈ t
  · simp [countNew, List.filter_cons, h]
  · simp [countNew, List.filter_cons, h]
    omega

theorem countNew_mono {s t : List Str} (h : s ⊆ t) (l : List Str) :
    countNew t l ≤ countNew s l := by
  induction l with
  | nil => simp [countNew]
  | cons a l ih =>
      rw [countNew_cons, countNew_cons]
      by_cases hat : a ∈ t
      · by_cases has : a ∈ s
        · simp only [hat, has, if_true]; omega
        · simp only [hat, has, if_true, if_false]; omega
      · have has : a ∉ s := fun hs => hat (h hs)
        simp only [hat, has, if_false]; omega

theorem countNew_lt {p : Str} {seen : List Str} (l : List Str) (hp : p ∈ l)
    (hnp : p ∉ seen) : countNew (p :: seen) l < countNew seen l := by
  induction l with
  | nil => cases hp
  | cons a l ih =>
      rw [countNew_cons, countNew_cons]
      by_cases hap : a = p
      · subst hap
        have h1 : countNew (a :: seen) l ≤ countNew seen l :=
          countNew_mono (fun x hx => List.mem_cons_of_mem a hx) l
        have hmem : a ∈ a :: seen := List.mem_cons_self a seen
        simp only [hmem, hnp, if_true, if_false]
        omega
      · have hp2 : p ∈ l := by
          rcases List.mem_cons.1 hp with h | h
          · exact absurd h.symm hap
          · exact h
        have step := ih hp2
        by_cases has : a ∈ seen
        · have h2 : a ∈ p :: seen := List.mem_cons_of_mem p has
          simp only [has, h2, if_true]; omega
        · have h2 : a ∉ p :: seen := by
            intro hc
            rcases List.mem_cons.1 hc with h | h
            · exact hap h
            · exact has h
          simp only [has, h2, if_false]; omega

theorem remaining_mono (e : Env) {s t : List Str} (h : s ⊆ t) :
    remaining e t ≤ remaining e s :=
  countNew_mono h (e.files.map Prod.fst)

theorem remaining_lt (e : Env) {p : Str} {seen : List Str}
    (hp : p ∈ e.files.map Prod.fst) (hnp : p ∉ seen) :
    remaining e (p :: seen) < remaining e seen :=
  countNew_lt (e.files.map Prod.fst) hp hnp

theorem alookup_isSome_mem {α : Type} (k : Str) (l : List (Str × α)) :
    (alookup k l).isSome → k ∈ l.map Prod.fst := by
  induction l with
  | nil => intro h; simp [alookup] at h
  | cons a l ih =>
      obtain ⟨k2, v⟩ := a
      by_cases hk : k2 = k
      · subst hk; intro _; exact List.mem_cons_self _ _
      · intro h
        simp only [alookup, hk, if_false] at h
        exact List.mem_cons_of_mem _ (ih h)

theorem readFile_mem (e : Env) (p : Str) {t : Str} (h : e.readFile p = some t) :
    p ∈ e.files.map Prod.fst := by
  apply alookup_isSome_mem p e.files
  unfold Env.readFile at h
  cases halo : alookup p e.files with
  | none => rw [halo] at h; simp [Option.getD] at h
  | some o => simp [halo]

/-- Every call of the walker returns a visited set that extends its input. -/
theorem walkStep_sub (e : Env)
    (walk : Str → List Str → Option Str → Option Node × List Str)
    (h : ∀ p s lt, s ⊆ (walk p s lt).2) (base : Str) :
    ∀ links seen, seen ⊆ (walkStep e walk base links seen).2 := by
  intro links
  induction links with
  | nil => intro seen; simp [walkStep]
  | cons hd rest ih =>
      intro seen
      obtain ⟨lbl, tgt⟩ := hd
      simp only [walkStep]
      split
      · exact ih seen
      · split
        · split
          · exact fun x hx => ih _ (h _ _ _ hx)
          · exact fun x hx => ih _ (h _ _ _ hx)
        · exact ih seen

theorem parseMdF_sub (e : Env) :
    ∀ f p seen lt, seen ⊆ (parseMdF e f p seen lt).2 := by
  intro f
  induction f with
  | zero => intro p seen lt; simp [parseMdF]
  | succ f ih =>
      intro p seen lt
      simp only [parseMdF]
      split
      · exact fun x hx => hx
      · split
        · exact fun x hx => hx
        · exact fun x hx =>
            walkStep_sub e _ (fun p2 s2 l2 => ih p2 s2 l2) _ _ _
              (List.mem_cons_of_mem _ hx)

/-- The walker's link loop only looks at the recursive call on visited sets
extending the one it starts from. -/
theorem walkStep_congr (e : Env)
    (w1 w2 : Str → List Str → Option Str → Option Node × List Str)
    (base : Str) (h1 : ∀ p s lt, s ⊆ (w1 p s lt).2) :
    ∀ links seen, (∀ p s lt, seen ⊆ s → w1 p s lt = w2 p s lt) →
      walkStep e w1 base links seen = walkStep e w2 base links seen := by
  intro links
  induction links with
  | nil => intro seen _; rfl
  | cons hd rest ih =>
      intro seen hag
      obtain ⟨lbl, tgt⟩ := hd
      simp only [walkStep]
      split
      · rw [ih seen hag]
      · split
        · rename_i resolved _
          have hc : w1 resolved seen (some lbl) = w2 resolved seen (some lbl) :=
            hag _ _ _ (fun _ hx => hx)
          rw [← hc]
          rw [ih ((w1 resolved seen (some lbl)).2)
              (fun p s lt hs => hag p s lt (fun x hx => hs (h1 _ _ _ hx)))]
        · rw [ih seen hag]

/-- One application of `parseMdF` at positive fuel, spelt out (definitional:
the recursion is structural in the fuel). -/
theorem parseMdF_unfold (e : Env) (f : Nat) (p0 : Str) (seen : List Str)
    (lt : Option Str) :
    parseMdF e (f + 1) p0 seen lt =
      (match e.readFile (resolvePath e p0) with
       | none => (none, seen)
       | some text =>
           let fmb := parse_frontmatter e.yamlLoad text
           let title := computeTitle fmb.1 lt (resolvePath e p0)
           let html := e.render fmb.2
           if resolvePath e p0 ∈ seen then
             (some (Node.mk (resolvePath e p0) title html []), seen)
           else
             let r := walkStep e (fun p s l => parseMdF e f p s l) (resolvePath e p0)
                 (extract_links fmb.2) (resolvePath e p0 :: seen)
             (some (Node.mk (resolvePath e p0) title html r.1), r.2)) := rfl

/-- One extra unit of fuel changes nothing once the fuel exceeds the number
of unvisited files. -/
theorem parseMdF_succ (e : Env) :
    ∀ f p seen lt, remaining e seen + 1 ≤ f →
      parseMdF e f p seen lt = parseMdF e (f + 1) p seen lt := by
  intro f
  induction f with
  | zero => intro p seen lt h; omega
  | succ f ih =>
      intro p seen lt h
      rw [parseMdF_unfold e f, parseMdF_unfold e (f + 1)]
      cases hread : e.readFile (resolvePath e p) with
      | none => rfl
      | some text =>
          by_cases hmem : resolvePath e p ∈ seen
          · simp only [hmem, if_true]
          · simp only [hmem, if_false]
            have hkey : resolvePath e p ∈ e.files.map Prod.fst :=
              readFile_mem e _ hread
            have hlt : remaining e (resolvePath e p :: seen) < remaining e seen :=
              remaining_lt e hkey hmem
            have hcong := walkStep_congr e
              (fun p2 s2 l2 => parseMdF e f p2 s2 l2)
              (fun p2 s2 l2 => parseMdF e (f + 1) p2 s2 l2)
              (resolvePath e p) (fun p2 s2 l2 => parseMdF_sub e f p2 s2 l2)
              (extract_links (parse_frontmatter e.yamlLoad text).2)
              (resolvePath e p :: seen)
              (fun p2 s2 l2 hs => by
                apply ih
                have h2 : remaining e s2 ≤ remaining e (resolvePath e p :: seen) :=
                  remaining_mono e hs
                omega)
            simp only [hcong]

/-- Fuel stability: any fuel of at least `remaining + 1` computes
`parse_md`. -/
theorem parseMdF_stable (e : Env) (p : Str) (seen : List Str) (lt : Option Str) :
    ∀ f, remaining e seen + 1 ≤ f → parseMdF e f p seen lt = parse_md e p seen lt := by
  intro f hf
  unfold parse_md
  induction f, hf using Nat.le_induction with
  | base => rfl
  | succ f hf ih => rw [← parseMdF_succ e f p seen lt hf, ih]

/-! ## The JSON shape of the tree (`json.dump` in `cli.py` writes the node
mapping with keys `id`, `title`, `content`, `children`, in insertion order;
`json.load` reads it back) -/

inductive Json where
  | str (v : Str)
  | num (v : Int)
  | bool (v : Bool)
  | null
  | arr (xs : List Json)
  | obj (kvs : List (Str × Json))

mutual

/-- The JSON value `json.dump` writes for a node dict. -/
def nodeToJson : Node → Json
  | .mk i t c ch =>
      .obj [(S "id", .str i), (S "title", .str t), (S "content", .str c),
            (S "children", .arr (nodesToJson ch))]

def nodesToJson : List Node → List Json
  | [] => []
  | n :: ns => nodeToJson n :: nodesToJson ns

end

mutual

/-- Modelled from the spec: reading a node back from the defined JSON shape
(a mapping with `id`, `title`, `content`, `children` keys, children an
ordered list of the same shape); the parser itself is the standard library's
`json.load`, outside the repository. -/
def nodeFromJson : Json → Option Node
  | .obj [(k1, .str i), (k2, .str t), (k3, .str c), (k4, .arr xs)] =>
      if k1 = S "id" ∧ k2 = S "title" ∧ k3 = S "content" ∧ k4 = S "children" then
        (nodesFromJson xs).map (Node.mk i t c)
      else none
  | _ => none

def nodesFromJson : List Json → Option (List Node)
  | [] => some []
  | j :: js =>
      match nodeFromJson j, nodesFromJson js with
      | some n, some ns => some (n :: ns)
      | _, _ => none

end

theorem roundtrip_aux :
    ∀ k : Nat,
      (∀ n : Node, sizeOf n ≤ k → nodeFromJson (nodeToJson n) = some n) ∧
      (∀ ns : List Node, sizeOf ns ≤ k → nodesFromJson (nodesToJson ns) = some ns) := by
  intro k
  induction k with
  | zero =>
      constructor
      · intro n h
        obtain ⟨i, t, c, ch⟩ := n
        simp at h
      · intro ns h
        cases ns with
        | nil => simp at h
        | cons n ns2 => simp at h
  | succ k ih =>
      constructor
      · intro n h
        obtain ⟨i, t, c, ch⟩ := n
        have hch : sizeOf ch ≤ k := by
          simp at h
          omega
        simp [nodeToJson, nodeFromJson, ih.2 ch hch]
      · intro ns h
        cases ns with
        | nil => simp [nodesFromJson, nodesToJson]
        | cons n ns2 =>
            have h1 : sizeOf n ≤ k := by simp at h; omega
            have h2 : sizeOf ns2 ≤ k := by simp at h; omega
            simp [nodesFromJson, nodesToJson, ih.1 n h1, ih.2 ns2 h2]

/-! ## Spec-side reformulations used by the claim theorems -/

/-- Whether the parsed frontmatter holds a truthy `title` value. -/
def fmTitleTruthy (fm : List (Str × YVal)) : Bool :=
  match alookup (S "title") fm with
  | some v => v.truthy
  | none => false

/-- The ordered candidate list of §4.3 of the spec, spelt out: the resolved
path itself; with no extension, the three markdown extensions appended in
order; for a directory (or a trailing separator), the three index files in
order. -/
def candidateList (e : Env) (raw : Str) : List Str :=
  [raw] ++
    (if (splitext raw).2 = [] then
      [raw ++ S ".md", raw ++ S ".markdown", raw ++ S ".mdx"]
    else []) ++
    (if e.isDir raw || endsWithSep raw then
      [joinPath raw (S "index.md"), joinPath raw (S "index.markdown"),
       joinPath raw (S "index.mdx")]
    else [])

/-- A candidate qualifies when it exists (after the case-insensitive
fallback) and the hit's extension is recognised. -/
def qualifies (e : Env) (c : Str) : Option Str :=
  match _case_insensitive_existing e c with
  | some hit =>
      if lowerStr (splitext hit).2 ∈ MD_EXTS then some (absPath e.cwd hit) else none
  | none => none

theorem tryCandidates_eq_findSome (e : Env) :
    ∀ l : List Str, tryCandidates e l = l.findSome? (qualifies e) := by
  intro l
  induction l with
  | nil => rfl
  | cons c rest ih =>
      simp only [tryCandidates, List.findSome?, qualifies]
      cases _case_insensitive_existing e c with
      | none => simpa using ih
      | some hit =>
          by_cases hq : lowerStr (splitext hit).2 ∈ MD_EXTS
          · simp [hq]
          · simpa [hq] using ih

/-- The case-insensitive fallback as the spec words it: the first entry of
the listing, in directory order, matching the basename case-insensitively
(and existing). -/
def ciSpec (e : Env) (d b : Str) (entries : List Str) : Option Str :=
  (entries.find? (fun en =>
      decide (lowerStr en = lowerStr b) && e.pathExists (joinPath d en))).map
    (fun en => absPath e.cwd (joinPath d en))

theorem ciScan_eq_find (e : Env) (d b : Str) :
    ∀ entries, ciScan e d b entries = ciSpec e d b entries := by
  intro entries
  induction entries with
  | nil => rfl
  | cons en rest ih =>
      simp only [ciScan, ciSpec, List.find?]
      by_cases h1 : lowerStr en = lowerStr b
      · by_cases h2 : e.pathExists (joinPath d en)
        · simp [h1, h2]
        · simp only [h1, h2]
          simpa [ciSpec] using ih
      · simp only [h1]
        simpa [ciSpec] using ih

/-! ## Concrete environments for witnesses and counterexamples -/

/-- A cyclic link graph: `R.md` links to `A.md` with label `L1`, `A.md`
links to `B.md`, `B.md` links back to `A.md` with label `L2`. -/
def env3 : Env :=
  { cwd := S "/"
    files := [(S "/d/R.md", some (S "[L1](A.md)")),
              (S "/d/A.md", some (S "[toB](B.md)")),
              (S "/d/B.md", some (S "[L2](A.md)"))]
    dirs := [(S "/d", some [S "R.md", S "A.md", S "B.md"]), (S "/", some [S "d"])]
    yamlLoad := fun _ => none
    render := fun b => b }

/-- A file whose frontmatter carries the truthy title `T`. -/
def envFm : Env :=
  { cwd := S "/"
    files := [(S "/d/F.md", some (S "---\ntitle: T\n---\nbody"))]
    dirs := [(S "/d", some [S "F.md"]), (S "/", some [S "d"])]
    yamlLoad := fun s => if s = S "title: T" then some [(S "title", YVal.s (S "T"))] else none
    render := fun b => b }

/-- A file whose frontmatter carries a falsy (null) title value. -/
def envFmFalsy : Env :=
  { cwd := S "/"
    files := [(S "/d/G.md", some (S "---\ntitle:\n---\nbody"))]
    dirs := [(S "/d", some [S "G.md"]), (S "/", some [S "d"])]
    yamlLoad := fun s => if s = S "title:" then some [(S "title", YVal.null)] else none
    render := fun b => b }

/-- `/docs/notes.md` exists; the bare target `notes` should resolve to it. -/
def envNotes : Env :=
  { cwd := S "/"
    files := [(S "/docs/a.md", some []), (S "/docs/notes.md", some (S "hi"))]
    dirs := [(S "/docs", some [S "a.md", S "notes.md"]), (S "/", some [S "docs"])]
    yamlLoad := fun _ => none
    render := fun b => b }

/-- Only `/docs/Sub/index.mdx` exists under the directory `Sub`. -/
def envSub : Env :=
  { cwd := S "/"
    files := [(S "/docs/a.md", some []), (S "/docs/Sub/index.mdx", some [])]
    dirs := [(S "/docs", some [S "a.md", S "Sub"]),
             (S "/docs/Sub", some [S "index.mdx"]), (S "/", some [S "docs"])]
    yamlLoad := fun _ => none
    render := fun b => b }

/-- Only the lower-case `readme.md` exists; the target `README.md` should
fall back to it. -/
def envReadme : Env :=
  { cwd := S "/"
    files := [(S "/docs/a.md", some []), (S "/docs/readme.md", some [])]
    dirs := [(S "/docs", some [S "a.md", S "readme.md"]), (S "/", some [S "docs"])]
    yamlLoad := fun _ => none
    render := fun b => b }

/-- `/d/R.md` links to `/d/U.md`, which exists but cannot be read. -/
def envUnreadable : Env :=
  { cwd := S "/"
    files := [(S "/d/R.md", some (S "[go](U.md)")), (S "/d/U.md", none)]
    dirs := [(S "/d", some [S "R.md", S "U.md"]), (S "/", some [S "d"])]
    yamlLoad := fun _ => none
    render := fun b => b }

/-- A single file with no links and no frontmatter. -/
def envLeaf : Env :=
  { cwd := S "/"
    files := [(S "/d/L.md", some (S "no links"))]
    dirs := [(S "/d", some [S "L.md"]), (S "/", some [S "d"])]
    yamlLoad := fun _ => none
    render := fun b => b }

/-- A directory whose listing raises `PermissionError`. -/
def envPerm : Env :=
  { cwd := S "/"
    files := []
    dirs := [(S "/docs", none), (S "/", some [S "docs"])]
    yamlLoad := fun _ => none
    render := fun b => b }

/-! ## The claims -/

/-- C1: the walk terminates on every link graph, cyclic ones included — any
fuel of at least `remaining + 1` computes the same result `parse_md`
returns — and when the canonical absolute path of the walked file is already
in the visited set the node is returned at once with `children = []` and
with the visited set untouched (no recursive descent). -/
theorem C1_termination_and_cycle_truncation :
    (∀ (e : Env) (f : Nat) (p : Str) (seen : List Str) (lt : Option Str),
        remaining e seen + 1 ≤ f →
        parseMdF e f p seen lt = parse_md e p seen lt) ∧
    (∀ (e : Env) (p : Str) (seen : List Str) (lt : Option Str) (text : Str),
        e.readFile (resolvePath e p) = some text →
        resolvePath e p ∈ seen →
        ∃ n : Node, parse_md e p seen lt = (some n, seen) ∧ n.children = []) := by
  constructor
  · intro e f p seen lt h
    exact parseMdF_stable e p seen lt f h
  · intro e p seen lt text hread hmem
    refine ⟨Node.mk (resolvePath e p)
        (computeTitle (parse_frontmatter e.yamlLoad text).1 lt (resolvePath e p))
        (e.render (parse_frontmatter e.yamlLoad text).2) [], ?_, rfl⟩
    unfold parse_md
    rw [parseMdF_unfold, hread]
    simp [hmem]

/-- Witness for C1 on the cyclic three-file graph `R → A → B → A`. -/
theorem C1_witness :
    parseMdF env3 9 (S "/d/R.md") [] none = parse_md env3 (S "/d/R.md") [] none ∧
    ∃ n : Node,
      parse_md env3 (S "/d/A.md") [S "/d/A.md"] (some (S "x")) = (some n, [S "/d/A.md"]) ∧
      n.children = [] :=
  ⟨C1_termination_and_cycle_truncation.1 env3 9 (S "/d/R.md") [] none (by decide),
   C1_termination_and_cycle_truncation.2 env3 (S "/d/A.md") [S "/d/A.md"]
     (some (S "x")) (S "[toB](B.md)") (by decide) (by decide)⟩

/-- Counterexample to C3: in `R →(L1) A →(toB) B →(L2) A`, file `A` (no
frontmatter title) is fully expanded at position `[0]` with title `L1`, and
its truncated re-occurrence at `[0, 0, 0]` — same id, no children — carries
the *current* inbound label `L2`, not the first-seen title `L1`. -/
theorem C3_counterexample :
    ((parse_md env3 (S "/d/R.md") [] none).1.bind (fun n => nodeAt n [0])).map Node.id =
        some (S "/d/A.md") ∧
    ((parse_md env3 (S "/d/R.md") [] none).1.bind (fun n => nodeAt n [0, 0, 0])).map Node.id =
        some (S "/d/A.md") ∧
    ((parse_md env3 (S "/d/R.md") [] none).1.bind (fun n => nodeAt n [0, 0, 0])).map
        (fun n => n.children.length) = some 0 ∧
    ((parse_md env3 (S "/d/R.md") [] none).1.bind (fun n => nodeAt n [0])).map Node.title =
        some (S "L1") ∧
    ((parse_md env3 (S "/d/R.md") [] none).1.bind (fun n => nodeAt n [0, 0, 0])).map Node.title =
        some (S "L2") ∧
    S "L1" ≠ S "L2" := by decide

/-- C3 as amended: a truncated re-occurrence does not keep the first-seen
title; it recomputes the title by the normal precedence with the *current*
inbound label (so it matches the first occurrence exactly when the file's
own frontmatter title decides, and shows the current label otherwise). -/
theorem C3_truncated_title_recomputed :
    ∀ (e : Env) (p : Str) (seen : List Str) (lt : Option Str) (text : Str),
      resolvePath e p ∈ seen →
      e.readFile (resolvePath e p) = some text →
      (parse_md e p seen lt).1 =
        some (Node.mk (resolvePath e p)
          (computeTitle (parse_frontmatter e.yamlLoad text).1 lt (resolvePath e p))
          (e.render (parse_frontmatter e.yamlLoad text).2) []) := by
  intro e p seen lt text hmem hread
  unfold parse_md
  rw [parseMdF_unfold, hread]
  simp [hmem]

/-- Witness for the amended C3: the truncated `A` under the label `L2`. -/
theorem C3_witness :
    (parse_md env3 (S "/d/A.md") [S "/d/A.md"] (some (S "L2"))).1 =
      some (Node.mk (resolvePath env3 (S "/d/A.md"))
        (computeTitle (parse_frontmatter env3.yamlLoad (S "[toB](B.md)")).1
          (some (S "L2")) (resolvePath env3 (S "/d/A.md")))
        (env3.render (parse_frontmatter env3.yamlLoad (S "[toB](B.md)")).2) []) :=
  C3_truncated_title_recomputed env3 (S "/d/A.md") [S "/d/A.md"] (some (S "L2"))
    (S "[toB](B.md)") (by decide) (by decide)

/-- C7: `parse_md` returns `None` exactly when the target file cannot be
read; and when the recursive walk of a resolved child returns `None`, the
parent appends a `Could not load` placeholder whose title is the inbound
label or, with an empty label, the resolved file's stem. -/
theorem C7_null_iff_unreadable :
    (∀ (e : Env) (p : Str) (seen : List Str) (lt : Option Str),
        (parse_md e p seen lt).1 = none ↔ e.readFile (resolvePath e p) = none) ∧
    (∀ (e : Env) (f : Nat) (base lbl tgt resolved : Str) (rest : List (Str × Str))
        (seen : List Str),
        is_external_link tgt = false →
        resolve_link e base tgt = some resolved →
        (parseMdF e f resolved seen (some lbl)).1 = none →
        walkStep e (fun p s l => parseMdF e f p s l) base ((lbl, tgt) :: rest) seen =
          (Node.mk resolved (if lbl.isEmpty then stemOf resolved else lbl)
              (S "<i>Could not load</i>") [] ::
            (walkStep e (fun p s l => parseMdF e f p s l) base rest
                (parseMdF e f resolved seen (some lbl)).2).1,
           (walkStep e (fun p s l => parseMdF e f p s l) base rest
              (parseMdF e f resolved seen (some lbl)).2).2)) := by
  constructor
  · intro e p seen lt
    unfold parse_md
    rw [parseMdF_unfold]
    cases hread : e.readFile (resolvePath e p) with
    | none => simp
    | some text =>
        by_cases hmem : resolvePath e p ∈ seen
        · simp [hmem]
        · simp [hmem]
  · intro e f base lbl tgt resolved rest seen hext hres hnone
    simp only [walkStep, hext, hres]
    simp [hnone, couldNotLoadNode, orS]

/-- Witness for C7: an unreadable child produces the placeholder; an
unreadable root gives `None`. -/
theorem C7_witness :
    ((parse_md envUnreadable (S "/d/U.md") [] none).1 = none ↔
      envUnreadable.readFile (resolvePath envUnreadable (S "/d/U.md")) = none) ∧
    walkStep envUnreadable (fun p s l => parseMdF envUnreadable 1 p s l) (S "/d/R.md")
        [(S "go", S "U.md")] [S "/d/R.md"] =
      (Node.mk (S "/d/U.md") (if (S "go").isEmpty then stemOf (S "/d/U.md") else S "go")
          (S "<i>Could not load</i>") [] ::
        (walkStep envUnreadable (fun p s l => parseMdF envUnreadable 1 p s l) (S "/d/R.md") []
            (parseMdF envUnreadable 1 (S "/d/U.md") [S "/d/R.md"] (some (S "go"))).2).1,
       (walkStep envUnreadable (fun p s l => parseMdF envUnreadable 1 p s l) (S "/d/R.md") []
          (parseMdF envUnreadable 1 (S "/d/U.md") [S "/d/R.md"] (some (S "go"))).2).2) :=
  ⟨C7_null_iff_unreadable.1 envUnreadable (S "/d/U.md") [] none,
   C7_null_iff_unreadable.2 envUnreadable 1 (S "/d/R.md") (S "go") (S "U.md")
     (S "/d/U.md") [] [S "/d/R.md"] (by decide) (by decide) rfl⟩

/-- The node a successful `parse_md` call returns carries the title computed
by the precedence rule on the file's frontmatter, the inbound label and the
canonical path. -/
theorem parse_md_title (e : Env) (p : Str) (seen : List Str) (lt : Option Str)
    (text : Str) (n : Node) (hread : e.readFile (resolvePath e p) = some text)
    (hsome : (parse_md e p seen lt).1 = some n) :
    n.title = computeTitle (parse_frontmatter e.yamlLoad text).1 lt (resolvePath e p) := by
  unfold parse_md at hsome
  rw [parseMdF_unfold, hread] at hsome
  by_cases hmem : resolvePath e p ∈ seen
  · simp only [hmem, if_true] at hsome
    injection hsome with h
    rw [← h]
    rfl
  · simp only [hmem, if_false] at hsome
    injection hsome with h
    rw [← h]
    rfl

/-- C2: title precedence — a truthy frontmatter `title` wins regardless of
the inbound label; otherwise a supplied (nonempty) inbound label; otherwise
the file's base name without extension. -/
theorem C2_title_precedence :
    ∀ (e : Env) (p : Str) (seen : List Str) (lt : Option Str) (text : Str) (n : Node),
      e.readFile (resolvePath e p) = some text →
      (parse_md e p seen lt).1 = some n →
      ((∀ v : YVal, alookup (S "title") (parse_frontmatter e.yamlLoad text).1 = some v →
          v.truthy = true → n.title = v.pyStr) ∧
       (fmTitleTruthy (parse_frontmatter e.yamlLoad text).1 = false →
          ∀ l : Str, lt = some l → l.isEmpty = false → n.title = l) ∧
       (fmTitleTruthy (parse_frontmatter e.yamlLoad text).1 = false → lt = none →
          n.title = stemOf (resolvePath e p))) := by
  intro e p seen lt text n hread hsome
  have htitle := parse_md_title e p seen lt text n hread hsome
  refine ⟨?_, ?_, ?_⟩
  · intro v hv htv
    rw [htitle]
    unfold computeTitle
    rw [hv]
    simp [htv]
  · intro hfalsy l hl hle
    rw [htitle, hl]
    unfold computeTitle
    unfold fmTitleTruthy at hfalsy
    cases halo : alookup (S "title") (parse_frontmatter e.yamlLoad text).1 with
    | none => simp [computeTitle.fallbackTitle, hle]
    | some v =>
        have hf2 : v.truthy = false := by rw [halo] at hfalsy; simpa using hfalsy
        simp [hf2, computeTitle.fallbackTitle, hle]
  · intro hfalsy hnone
    rw [htitle, hnone]
    unfold computeTitle
    unfold fmTitleTruthy at hfalsy
    cases halo : alookup (S "title") (parse_frontmatter e.yamlLoad text).1 with
    | none => simp [computeTitle.fallbackTitle]
    | some v =>
        have hf2 : v.truthy = false := by rw [halo] at hfalsy; simpa using hfalsy
        simp [hf2, computeTitle.fallbackTitle]

/-- Witness for C2: frontmatter `T` beats the label `LBL`; with no
frontmatter title the label `Foo` is used; with neither, the stem `L`. -/
theorem C2_witness :
    (Node.mk (S "/d/F.md") (S "T") (S "body") []).title = (YVal.s (S "T")).pyStr ∧
    (Node.mk (S "/d/L.md") (S "Foo") (S "no links") []).title = S "Foo" ∧
    (Node.mk (S "/d/L.md") (S "L") (S "no links") []).title = stemOf (resolvePath envLeaf (S "/d/L.md")) :=
  ⟨(C2_title_precedence envFm (S "/d/F.md") [] (some (S "LBL"))
      (S "---\ntitle: T\n---\nbody") (Node.mk (S "/d/F.md") (S "T") (S "body") [])
      (by decide) rfl).1 (YVal.s (S "T")) (by decide) (by decide),
   (C2_title_precedence envLeaf (S "/d/L.md") [] (some (S "Foo")) (S "no links")
      (Node.mk (S "/d/L.md") (S "Foo") (S "no links") [])
      (by decide) rfl).2.1 (by decide) (S "Foo") rfl (by decide),
   (C2_title_precedence envLeaf (S "/d/L.md") [] none (S "no links")
      (Node.mk (S "/d/L.md") (S "L") (S "no links") [])
      (by decide) rfl).2.2 (by decide) rfl⟩

/-- C10: a present but falsy frontmatter `title` (empty string, 0, false or
null) is treated as absent — the title falls back to the inbound label or
the stem. -/
theorem C10_falsy_title_ignored :
    ∀ (e : Env) (p : Str) (seen : List Str) (lt : Option Str) (text : Str) (n : Node)
      (v : YVal),
      e.readFile (resolvePath e p) = some text →
      (parse_md e p seen lt).1 = some n →
      alookup (S "title") (parse_frontmatter e.yamlLoad text).1 = some v →
      v.truthy = false →
      ((∀ l : Str, lt = some l → l.isEmpty = false → n.title = l) ∧
       (lt = none → n.title = stemOf (resolvePath e p))) := by
  intro e p seen lt text n v hread hsome hv hfalsy
  have htitle := parse_md_title e p seen lt text n hread hsome
  constructor
  · intro l hl hle
    rw [htitle, hl]
    unfold computeTitle
    rw [hv]
    simp [hfalsy, computeTitle.fallbackTitle, hle]
  · intro hnone
    rw [htitle, hnone]
    unfold computeTitle
    rw [hv]
    simp [hfalsy, computeTitle.fallbackTitle]

/-- Witness for C10: a null `title` value falls back to the label `Foo`,
and with no label to the stem `G`. -/
theorem C10_witness :
    (Node.mk (S "/d/G.md") (S "Foo") (S "body") []).title = S "Foo" ∧
    (Node.mk (S "/d/G.md") (S "G") (S "body") []).title = stemOf (resolvePath envFmFalsy (S "/d/G.md")) :=
  ⟨(C10_falsy_title_ignored envFmFalsy (S "/d/G.md") [] (some (S "Foo"))
      (S "---\ntitle:\n---\nbody") (Node.mk (S "/d/G.md") (S "Foo") (S "body") [])
      YVal.null (by decide) rfl (by decide) (by decide)).1
    (S "Foo") rfl (by decide),
   (C10_falsy_title_ignored envFmFalsy (S "/d/G.md") [] none
      (S "---\ntitle:\n---\nbody") (Node.mk (S "/d/G.md") (S "G") (S "body") [])
      YVal.null (by decide) rfl (by decide) (by decide)).2 rfl⟩

/-- C4: `resolve_link` tests exactly the ordered candidate list — the
resolved path; with no extension, `.md`, `.markdown`, `.mdx` appended in
that order; for a directory (or a trailing separator), the three `index`
files in that order — and returns the first candidate that exists and whose
extension is recognised.  In particular `notes` resolves to
`/docs/notes.md`, and `Sub/` with only `index.mdx` present resolves to
`/docs/Sub/index.mdx`. -/
theorem C4_candidate_order :
    (∀ (e : Env) (base link : Str),
        ((urlparse link).scheme.isEmpty || (urlparse link).netloc.isEmpty) = true →
        pyStrip (unquote (urlparse link).path) ≠ [] →
        resolve_link e base link =
          (candidateList e
              (absPath e.cwd
                (joinPath (dirname base)
                  (pyStrip (unquote (urlparse link).path))))).findSome? (qualifies e)) ∧
    resolve_link envNotes (S "/docs/a.md") (S "notes") = some (S "/docs/notes.md") ∧
    resolve_link envSub (S "/docs/a.md") (S "Sub/") = some (S "/docs/Sub/index.mdx") := by
  refine ⟨?_, by decide, by decide⟩
  intro e base link hext hne
  have h1 : (!(urlparse link).scheme.isEmpty && !(urlparse link).netloc.isEmpty) = false := by
    rcases Bool.or_eq_true_iff.1 hext with h | h
    · simp [h]
    · simp [h]
  have h2 : (pyStrip (unquote (urlparse link).path)).isEmpty = false := by
    cases hp : pyStrip (unquote (urlparse link).path) with
    | nil => exact absurd hp hne
    | cons a l => rfl
  have hi1 : S "index" ++ S ".md" = S "index.md" := rfl
  have hi2 : S "index" ++ S ".markdown" = S "index.markdown" := rfl
  have hi3 : S "index" ++ S ".mdx" = S "index.mdx" := rfl
  unfold resolve_link
  simp only [h1, h2, Bool.false_eq_true, if_false]
  rw [tryCandidates_eq_findSome]
  apply congrArg (List.findSome? (qualifies e))
  unfold candidateList
  by_cases hsx :
      (splitext (absPath e.cwd (joinPath (dirname base)
        (pyStrip (unquote (urlparse link).path))))).2 = []
  · by_cases hdir :
        (e.isDir (absPath e.cwd (joinPath (dirname base)
          (pyStrip (unquote (urlparse link).path)))) ||
         endsWithSep (absPath e.cwd (joinPath (dirname base)
          (pyStrip (unquote (urlparse link).path))))) = true
    · simp [hsx, hdir, MD_EXTS, List.isEmpty_iff, hi1, hi2, hi3]
    · simp [hsx, hdir, MD_EXTS, List.isEmpty_iff]
  · by_cases hdir :
        (e.isDir (absPath e.cwd (joinPath (dirname base)
          (pyStrip (unquote (urlparse link).path)))) ||
         endsWithSep (absPath e.cwd (joinPath (dirname base)
          (pyStrip (unquote (urlparse link).path))))) = true
    · simp [hsx, hdir, MD_EXTS, List.isEmpty_iff, hi1, hi2, hi3]
    · simp [hsx, hdir, MD_EXTS, List.isEmpty_iff]

/-- Witness for C4 at the concrete `notes` example. -/
theorem C4_witness :
    resolve_link envNotes (S "/docs/a.md") (S "notes") =
      (candidateList envNotes
          (absPath envNotes.cwd
            (joinPath (dirname (S "/docs/a.md"))
              (pyStrip (unquote (urlparse (S "notes")).path))))).findSome?
        (qualifies envNotes) :=
  C4_candidate_order.1 envNotes (S "/docs/a.md") (S "notes") (by decide) (by decide)

/-- C5: a target whose parse carries both a scheme and a netloc resolves to
nothing on every filesystem and is classified external (the walker then
appends the external placeholder child); a scheme with no netloc is not
external. -/
theorem C5_external_classification :
    (∀ (link : Str) (e : Env) (base : Str),
        is_external_link link = true → resolve_link e base link = none) ∧
    (∀ link : Str, (urlparse link).netloc = [] → is_external_link link = false) ∧
    is_external_link (S "http://example.com/x") = true ∧
    (∀ (e : Env) (base : Str), resolve_link e base (S "http://example.com/x") = none) ∧
    (∀ (e : Env) (walk : Str → List Str → Option Str → Option Node × List Str)
        (base lbl tgt : Str) (rest : List (Str × Str)) (seen : List Str),
        is_external_link tgt = true →
        walkStep e walk base ((lbl, tgt) :: rest) seen =
          (externalNode lbl tgt :: (walkStep e walk base rest seen).1,
           (walkStep e walk base rest seen).2)) := by
  have hres : ∀ (link : Str) (e : Env) (base : Str),
      is_external_link link = true → resolve_link e base link = none := by
    intro link e base h
    unfold is_external_link at h
    unfold resolve_link
    simp only [h, if_true]
  refine ⟨hres, ?_, by decide, ?_, ?_⟩
  · intro link hn
    unfold is_external_link
    simp [hn]
  · intro e base
    exact hres (S "http://example.com/x") e base (by decide)
  · intro e walk base lbl tgt rest seen hext
    simp only [walkStep, hext, if_true]

/-- Witness for C5 at `http://example.com/x` and `mailto:a@b`. -/
theorem C5_witness :
    resolve_link env3 (S "/d/R.md") (S "http://example.com/x") = none ∧
    is_external_link (S "mailto:a@b") = false ∧
    walkStep env3 (fun p s l => parseMdF env3 0 p s l) (S "/d/R.md")
        [(S "lab", S "http://example.com/x")] [] =
      (externalNode (S "lab") (S "http://example.com/x") ::
        (walkStep env3 (fun p s l => parseMdF env3 0 p s l) (S "/d/R.md") [] []).1,
       (walkStep env3 (fun p s l => parseMdF env3 0 p s l) (S "/d/R.md") [] []).2) :=
  ⟨C5_external_classification.1 (S "http://example.com/x") env3 (S "/d/R.md") (by decide),
   C5_external_classification.2.1 (S "mailto:a@b") (by decide),
   C5_external_classification.2.2.2.2 env3 (fun p s l => parseMdF env3 0 p s l)
     (S "/d/R.md") (S "lab") (S "http://example.com/x") [] [] (by decide)⟩

/-- C6: `parse_frontmatter` never raises; when the delimited block matches
but the metadata fails to load, it returns an empty mapping with the
delimiters already stripped from the body; with no match it returns an empty
mapping and the whole text. -/
theorem C6_frontmatter_errors :
    (∀ (y : YamlFn) (text f b : Str),
        fmMatch text = some (f, b) → y f = none →
        parse_frontmatter y text = ([], b)) ∧
    (∀ (y : YamlFn) (text : Str),
        fmMatch text = none → parse_frontmatter y text = ([], text)) ∧
    parse_frontmatter (fun _ => none) (S "---\ntitle: [x\n---\nbody") = ([], S "body") ∧
    parse_frontmatter (fun _ => none) (S "no frontmatter here") =
      ([], S "no frontmatter here") := by
  refine ⟨?_, ?_, by decide, by decide⟩
  · intro y text f b hm hy
    unfold parse_frontmatter
    rw [hm]
    simp [hy]
  · intro y text hm
    unfold parse_frontmatter
    rw [hm]

/-- Witness for C6 on a malformed metadata block and an unmatched text. -/
theorem C6_witness :
    parse_frontmatter (fun _ => none) (S "---\na: 1\n---\nrest") = ([], S "rest") ∧
    parse_frontmatter (fun _ => none) (S "hello") = ([], S "hello") :=
  ⟨C6_frontmatter_errors.1 (fun _ => none) (S "---\na: 1\n---\nrest")
     (S "a: 1") (S "rest") (by decide) rfl,
   C6_frontmatter_errors.2.1 (fun _ => none) (S "hello") (by decide)⟩

/-- C8: when a candidate does not exist, `_case_insensitive_existing` falls
back to the first case-insensitive basename match in directory-listing
order; a `PermissionError` while listing is swallowed as "no match"; and
`README.md` resolves to an existing `readme.md`. -/
theorem C8_case_insensitive_fallback :
    (∀ (e : Env) (path : Str) (entries : List Str),
        e.pathExists path = false → e.isDir (dirname path) = true →
        e.listdir (dirname path) = some entries →
        _case_insensitive_existing e path =
          ciSpec e (dirname path) (basename path) entries) ∧
    (∀ (e : Env) (path : Str),
        e.pathExists path = false → e.isDir (dirname path) = true →
        e.listdir (dirname path) = none →
        _case_insensitive_existing e path = none) ∧
    resolve_link envReadme (S "/docs/a.md") (S "README.md") = some (S "/docs/readme.md") := by
  refine ⟨?_, ?_, by decide⟩
  · intro e path entries hex hdir hls
    unfold _case_insensitive_existing
    simp [hex, hdir, hls, ciScan_eq_find]
  · intro e path hex hdir hls
    unfold _case_insensitive_existing
    simp [hex, hdir, hls]

/-- Witness for C8: the `README.md` fallback and a permission failure. -/
theorem C8_witness :
    _case_insensitive_existing envReadme (S "/docs/README.md") =
      ciSpec envReadme (dirname (S "/docs/README.md")) (basename (S "/docs/README.md"))
        [S "a.md", S "readme.md"] ∧
    _case_insensitive_existing envPerm (S "/docs/x.md") = none :=
  ⟨C8_case_insensitive_fallback.1 envReadme (S "/docs/README.md")
     [S "a.md", S "readme.md"] (by decide) (by decide) (by decide),
   C8_case_insensitive_fallback.2.1 envPerm (S "/docs/x.md")
     (by decide) (by decide) (by decide)⟩

/-- C9: serialising a node tree to the JSON shape (`id`, `title`, `content`,
`children`, children an ordered list of the same shape) and parsing it back
yields the identical tree. -/
theorem C9_json_roundtrip : ∀ n : Node, nodeFromJson (nodeToJson n) = some n :=
  fun n => (roundtrip_aux (sizeOf n)).1 n (Nat.le_refl _)

end MDMM
